import Mathlib

/-!
Verification of the fuzzing-engine core of this repository
(`src/libafl/src/corpus/testcase.rs` and `src/afl/src/engines/mod.rs`)
against its natural-language specification.

Shallow embedding: Rust structs become Lean structures, fallible Rust
functions returning `Result` become functions into `Except` (or, where a
panic is possible, into `RustResult`, which has a dedicated `panicked`
constructor).  External collaborators (executor, feedback tuple, generator,
event manager, file system) are modelled as outcome oracles passed in as
parameters, and their observable invocations are recorded in explicit
effect/event logs.
-/

namespace LibAFL

/-- Modelled from the spec: the error type of the crate (`AflError` /
`Error`) is not under `src/`; §7 names three recognized categories —
execution failure, I/O/serialization failure, and exhaustion (empty
corpus). -/
inductive AflError where
  | execution : AflError
  | io : AflError
  | serialize : AflError
  | empty : AflError
deriving DecidableEq, Repr

/-- Outcome of a Rust call that may return `Ok`, return `Err`, or panic
(e.g. `Option::unwrap` on `None`). -/
inductive RustResult (ε α : Type) where
  | ok : α → RustResult ε α
  | err : ε → RustResult ε α
  | panicked : RustResult ε α
deriving DecidableEq, Repr

/-- Equality of `Except` outcomes is decidable when it is on both sides;
used to evaluate the oracle structures at concrete points. -/
instance {ε α : Type} [DecidableEq ε] [DecidableEq α] :
    DecidableEq (Except ε α) := fun a b =>
  match a, b with
  | .ok x, .ok y =>
    if h : x = y then .isTrue (by rw [h]) else
      .isFalse (by intro hc; cases hc; exact h rfl)
  | .error x, .error y =>
    if h : x = y then .isTrue (by rw [h]) else
      .isFalse (by intro hc; cases hc; exact h rfl)
  | .ok _, .error _ => .isFalse (by intro hc; cases hc)
  | .error _, .ok _ => .isFalse (by intro hc; cases hc)

/-- `Testcase<I>` from `src/libafl/src/corpus/testcase.rs`: an input plus
scoring metadata and optional on-disk backing.  `fitness` is a `u32` and
`metadatas` a `SerdeAnyMap`; no arithmetic is performed on either here, so
`fitness` is a `Nat` and the metadata map an abstract `List Nat`. -/
structure Testcase (I : Type) where
  input : Option I
  filename : Option String
  fitness : Nat
  metadatas : List Nat
  exec_time : Option Nat
deriving DecidableEq, Repr

/-- `Testcase::new`: input present, no filename, fitness 0. -/
def Testcase.new {I : Type} (input : I) : Testcase I :=
  { input := some input, filename := none, fitness := 0,
    metadatas := [], exec_time := none }

/-- `Testcase::with_filename`: input and filename both present. -/
def Testcase.with_filename {I : Type} (input : I) (filename : String) :
    Testcase I :=
  { input := some input, filename := some filename, fitness := 0,
    metadatas := [], exec_time := none }

/-- `Testcase::default` (the inherent method, lines 163-171, matching the
derived `Default`): both `input` and `filename` are `None`. -/
def Testcase.default (I : Type) : Testcase I :=
  { input := none, filename := none, fitness := 0,
    metadatas := [], exec_time := none }

/-- `Testcase::set_input`. -/
def Testcase.set_input {I : Type} (tc : Testcase I) (input : I) :
    Testcase I :=
  { tc with input := some input }

/-- `Testcase::set_filename`. -/
def Testcase.set_filename {I : Type} (tc : Testcase I) (filename : String) :
    Testcase I :=
  { tc with filename := some filename }

/-- `Testcase::set_fitness`. -/
def Testcase.set_fitness {I : Type} (tc : Testcase I) (fitness : Nat) :
    Testcase I :=
  { tc with fitness := fitness }

/-- `Testcase::load_input`.  The external deserializer `I::from_file`
(the `Input` collaborator contract) is the parameter `from_file`.  The
source reads `self.filename.as_ref().unwrap()`: when `input` is absent and
`filename` is absent too, the `unwrap` panics. -/
def Testcase.load_input {I : Type}
    (from_file : String → Except AflError I) (tc : Testcase I) :
    RustResult AflError (I × Testcase I) :=
  match tc.input with
  | some i => .ok (i, tc)
  | none =>
    match tc.filename with
    | none => .panicked
    | some f =>
      match from_file f with
      | .error e => .err e
      | .ok i => .ok (i, { tc with input := some i })

/-- One observable effect of `Testcase::store_input`: the serializer
`Input::to_file` was invoked with the given filename. -/
inductive StoreEffect where
  | wrote : String → StoreEffect
deriving DecidableEq, Repr

/-- `Testcase::store_input`.  The external serializer `Input::to_file` is
represented by its outcome `to_file`; the returned effect list records
whether it was invoked.  Source order: no `filename` → `Ok(false)` before
touching the input; filename set but `input` absent → `Ok(false)`;
otherwise serialize and return `Ok(true)`. -/
def Testcase.store_input {I : Type}
    (to_file : Except AflError Unit) (tc : Testcase I) :
    Except AflError Bool × List StoreEffect :=
  match tc.filename with
  | none => (.ok false, [])
  | some fname =>
    match tc.input with
    | none => (.ok false, [])
    | some _ =>
      match to_file with
      | .error e => (.error e, [.wrote fname])
      | .ok _ => (.ok true, [.wrote fname])

/-- `State<I, R, FT>` from `src/afl/src/engines/mod.rs`.  The feedback
tuple `FT` and the random-source type `R` are external collaborators:
their outcomes are passed to each operation as oracle parameters, so only
the concrete bookkeeping fields remain.  `metadatas` is the name-keyed
registry (a `HashMap<&'static str, Box<dyn StateMetadata>>`), abstracted
to an association list of names. -/
structure State where
  executions : Nat
  start_time : Nat
  metadatas : List String
deriving DecidableEq, Repr

/-- `State::set_executions`: plain setter, stores any value. -/
def State.set_executions (s : State) (executions : Nat) : State :=
  { s with executions := executions }

/-- `State::set_start_time`. -/
def State.set_start_time (s : State) (ms : Nat) : State :=
  { s with start_time := ms }

/-- `State::executions_over_seconds`.  `current_milliseconds()` is the
parameter `now` (the claims only concern `now ≥ start_time`, where Rust's
`u64` subtraction and `Nat` subtraction agree). -/
def State.executions_over_seconds (s : State) (now : Nat) : Nat :=
  let elapsed := now - s.start_time
  if elapsed = 0 then 0
  else
    let elapsed := elapsed / 1000
    if elapsed = 0 then 0 else s.executions / elapsed

/-- Outcomes of one executor/feedback round used by
`State::evaluate_input`: `reset_observers`, `run_target`,
`post_exec_observers` and `is_interesting_all` are collaborator calls that
each may fail (§6); `is_interesting_all` yields the combined fitness. -/
structure ExecOutcome where
  reset : Except AflError Unit
  runTarget : Except AflError Unit
  postExec : Except AflError Unit
  isInteresting : Except AflError Nat
deriving DecidableEq, Repr

/-- `State::evaluate_input` (lines 117-130): reset observers, run the
target, increment `executions`, post-process observers, score via the
feedback tuple.  Returns the result together with the state as left by
the call (the increment survives later failures). -/
def State.evaluate_input (s : State) (ex : ExecOutcome) :
    Except AflError Nat × State :=
  match ex.reset with
  | .error e => (.error e, s)
  | .ok _ =>
    match ex.runTarget with
    | .error e => (.error e, s)
    | .ok _ =>
      let s := s.set_executions (s.executions + 1)
      match ex.postExec with
      | .error e => (.error e, s)
      | .ok _ =>
        match ex.isInteresting with
        | .error e => (.error e, s)
        | .ok fitness => (.ok fitness, s)

/-- Outcomes of the feedback-tuple collaborator calls used by the
testcase-building operations: `append_metadata_all` (with the metadata it
attaches on success) and `discard_metadata_all`. -/
structure FbOutcome where
  append : Except AflError Unit
  appendMeta : List Nat
  discard : Except AflError Unit
deriving DecidableEq, Repr

/-- An observable invocation of a feedback-tuple operation. -/
inductive FbEffect where
  | appendInvoked : FbEffect
  | discardInvoked : FbEffect
deriving DecidableEq, Repr

/-- `State::input_to_testcase` (lines 141-146): build a `Testcase::new`,
set its fitness, then let every feedback append its metadata.  The effect
list records that `append_metadata_all` was invoked. -/
def State.input_to_testcase {I : Type} (fb : FbOutcome) (input : I)
    (fitness : Nat) : Except AflError (Testcase I) × List FbEffect :=
  let testcase := Testcase.new input
  let testcase := testcase.set_fitness fitness
  match fb.append with
  | .error e => (.error e, [.appendInvoked])
  | .ok _ => (.ok { testcase with metadatas := fb.appendMeta },
              [.appendInvoked])

/-- `State::discard_input` (lines 134-137): forwards to
`discard_metadata_all`. -/
def State.discard_input (fb : FbOutcome) :
    Except AflError Unit × List FbEffect :=
  (fb.discard, [.discardInvoked])

/-- `State::testcase_if_interesting` (lines 150-161): fitness > 0 → build
a testcase; fitness == 0 → discard and produce `none`. -/
def State.testcase_if_interesting {I : Type} (fb : FbOutcome) (input : I)
    (fitness : Nat) :
    Except AflError (Option (Testcase I)) × List FbEffect :=
  if fitness > 0 then
    match State.input_to_testcase fb input fitness with
    | (.error e, eff) => (.error e, eff)
    | (.ok testcase, eff) => (.ok (some testcase), eff)
  else
    match State.discard_input fb with
    | (.error e, eff) => (.error e, eff)
    | (.ok _, eff) => (.ok none, eff)

/-- Modelled from the spec: the minimal `Corpus` contract consumed by this
core (§3) — `add(testcase) -> index` takes ownership and returns a stable
handle.  `InMemoryCorpus` is not under `src/`; here a corpus is the list
of its testcases and `add` appends, returning the position. -/
abbrev Corpus (I : Type) := List (Testcase I)

/-- Modelled from the spec: `Corpus::add` appends the testcase and returns
its stable index. -/
def Corpus.add {I : Type} (c : Corpus I) (tc : Testcase I) :
    Corpus I × Nat :=
  (c ++ [tc], List.length c)

/-- Modelled from the spec: `Corpus::next(rand)` — selection is
policy-defined, parameterized by the random source (here the draw
`choice`); fails with the exhaustion error if the corpus is empty. -/
def Corpus.next {I : Type} (c : Corpus I) (choice : Nat) :
    Except AflError (Testcase I × Nat) :=
  match h : List.length (α := Testcase I) c with
  | 0 => .error .empty
  | Nat.succ n =>
    let idx := choice % (n + 1)
    .ok (List.get c ⟨idx, by rw [h]; exact Nat.mod_lt _ (Nat.succ_pos n)⟩,
         idx)

/-- `State::add_if_interesting` (lines 165-181): fitness > 0 → build a
testcase and `corpus.add` it, returning its index; fitness == 0 → discard
and return `none`.  Returns the result, the corpus afterwards, and the
feedback invocations. -/
def State.add_if_interesting {I : Type} (fb : FbOutcome) (c : Corpus I)
    (input : I) (fitness : Nat) :
    Except AflError (Option Nat) × Corpus I × List FbEffect :=
  if fitness > 0 then
    match State.input_to_testcase fb input fitness with
    | (.error e, eff) => (.error e, c, eff)
    | (.ok testcase, eff) =>
      let (c, idx) := Corpus.add c testcase
      (.ok (some idx), c, eff)
  else
    match State.discard_input fb with
    | (.error e, eff) => (.error e, c, eff)
    | (.ok _, eff) => (.ok none, c, eff)

/-- An observable step of `Fuzzer::fuzz_one`: a stage (by its position in
the configured sequence) was performed against a corpus index, or the
event manager was asked to process pending inbound events. -/
inductive FzEvent where
  | stageRun : Nat → Nat → FzEvent
  | processed : FzEvent
deriving DecidableEq, Repr

/-- The stage loop of `Fuzzer::fuzz_one` (`for stage in self.stages_mut()
{ stage.perform(..., idx)? }`): each stage is the collaborator outcome of
`Stage::perform` as a function of the corpus index; `k` numbers the stages
already consumed.  Returns the loop outcome and the log of performed
stages, in order. -/
def run_stages (stages : List (Nat → Except AflError Unit)) (idx k : Nat) :
    Except AflError Unit × List FzEvent :=
  match stages with
  | [] => (.ok (), [])
  | stage :: rest =>
    match stage idx with
    | .error e => (.error e, [.stageRun k idx])
    | .ok _ =>
      ((run_stages rest idx (k + 1)).1,
       .stageRun k idx :: (run_stages rest idx (k + 1)).2)

/-- The log left by `n` successfully performed stages numbered from `k`
against corpus index `idx`: `[stageRun k idx, stageRun (k+1) idx, ...]`. -/
def stage_log (n idx k : Nat) : List FzEvent :=
  match n with
  | 0 => []
  | Nat.succ n => FzEvent.stageRun k idx :: stage_log n idx (k + 1)

/-- `Fuzzer::fuzz_one` (lines 283-302): select `(testcase, idx)` via
`corpus.next(rand)`, perform every stage in order against `idx`
(propagating the first failure), then `manager.process`, then return
`idx`.  `choice` stands for the random draw, `processOutcome` for the
event manager collaborator call. -/
def fuzz_one {I : Type} (c : Corpus I) (choice : Nat)
    (stages : List (Nat → Except AflError Unit))
    (processOutcome : Except AflError Unit) :
    Except AflError Nat × List FzEvent :=
  match Corpus.next c choice with
  | .error e => (.error e, [])
  | .ok (_, idx) =>
    match run_stages stages idx 0 with
    | (.error e, evs) => (.error e, evs)
    | (.ok _, evs) =>
      match processOutcome with
      | .error e => (.error e, evs)
      | .ok _ => (.ok idx, evs ++ [.processed])

/-- An event fired/processed through the `EventManager` during
`State::generate_initial_inputs`: one `Event::LoadInitial` per generated
input, one summary `Event::log` carrying the added/total counts, and the
final `process` call. -/
inductive EmEvent where
  | loadInitial : EmEvent
  | logMsg : Nat → Nat → EmEvent
  | processed : EmEvent
deriving DecidableEq, Repr

/-- Per-iteration collaborator outcomes for
`State::generate_initial_inputs`: the generator, the executor/feedback
round consumed by `evaluate_input`, the feedback calls consumed by
`add_if_interesting`, and the `fire(LoadInitial)` call, each as a function
of the iteration number; plus the final `fire(log)` and `process`
outcomes. -/
structure InitOracle (I : Type) where
  gen : Nat → Except AflError I
  exec : Nat → ExecOutcome
  fb : Nat → FbOutcome
  fireLoadInitial : Nat → Except AflError Unit
  fireLog : Except AflError Unit
  processEvents : Except AflError Unit

/-- The `for _ in 0..num` loop body of `State::generate_initial_inputs`:
generate, evaluate, conditionally add, count, fire `LoadInitial` —
iterations `i, i+1, ...` with `n` remaining.  On any collaborator failure
the error propagates (`?`).  Returns the state, corpus, `added` count and
fired events on success. -/
def gii_loop {I : Type} (o : InitOracle I) (s : State) (c : Corpus I)
    (i n added : Nat) :
    Except AflError (State × Corpus I × Nat × List EmEvent) :=
  match n with
  | 0 => .ok (s, c, added, [])
  | Nat.succ n =>
    match o.gen i with
    | .error e => .error e
    | .ok input =>
      match State.evaluate_input s (o.exec i) with
      | (.error e, _) => .error e
      | (.ok fitness, s) =>
        match State.add_if_interesting (o.fb i) c input fitness with
        | (.error e, _, _) => .error e
        | (.ok res, c, _) =>
          let added := match res with
            | some _ => added + 1
            | none => added
          match o.fireLoadInitial i with
          | .error e => .error e
          | .ok _ =>
            match gii_loop o s c (i + 1) n added with
            | .error e => .error e
            | .ok (s, c, added, evs) =>
              .ok (s, c, added, EmEvent.loadInitial :: evs)

/-- `State::generate_initial_inputs` (lines 183-217): run the loop `num`
times, fire the summary log event with the counts, then ask the manager to
process pending events. -/
def State.generate_initial_inputs {I : Type} (o : InitOracle I) (s : State)
    (c : Corpus I) (num : Nat) :
    Except AflError (State × Corpus I × List EmEvent) :=
  match gii_loop o s c 0 num 0 with
  | .error e => .error e
  | .ok (s, c, added, evs) =>
    match o.fireLog with
    | .error e => .error e
    | .ok _ =>
      match o.processEvents with
      | .error e => .error e
      | .ok _ =>
        .ok (s, c,
             evs ++ [EmEvent.logMsg added num, EmEvent.processed])

/-- A concrete all-successful oracle: the generator always yields input
`0`, every executor step succeeds, every input scores fitness 1, and
every event-manager call succeeds. -/
def initOracleTest : InitOracle Nat where
  gen := fun _ => .ok 0
  exec := fun _ => ExecOutcome.mk (.ok ()) (.ok ()) (.ok ()) (.ok 1)
  fb := fun _ => FbOutcome.mk (.ok ()) [] (.ok ())
  fireLoadInitial := fun _ => .ok ()
  fireLog := .ok ()
  processEvents := .ok ()

/-- C1 counterexample: on the `Testcase` with both `input` and `filename`
absent, `load_input` panics (the `unwrap` on the absent filename) — it
does not return a typed error, whatever the deserializer would do. -/
theorem load_input_both_absent_not_error :
    Testcase.load_input (fun _ => Except.error AflError.io)
        (Testcase.default Nat) = RustResult.panicked
    ∧ ¬ ∃ e, Testcase.load_input (fun _ => Except.error AflError.io)
        (Testcase.default Nat) = RustResult.err e := by
  constructor
  · rfl
  · rintro ⟨e, he⟩
    simp [Testcase.load_input, Testcase.default] at he

/-- C1 (amended): for every Testcase on which `input` is absent and
`filename` is also absent, `load_input` panics (the source unwraps the
absent filename) rather than returning a typed error. -/
theorem load_input_both_absent_panics {I : Type}
    (ff : String → Except AflError I) (tc : Testcase I)
    (h1 : tc.input = none) (h2 : tc.filename = none) :
    Testcase.load_input ff tc = RustResult.panicked := by
  simp [Testcase.load_input, h1, h2]

/-- Witness for C1 (amended) at the all-absent default testcase. -/
theorem load_input_both_absent_panics_witness :
    (Testcase.default Nat).input = none
    ∧ (Testcase.default Nat).filename = none
    ∧ Testcase.load_input (fun _ => Except.ok 7) (Testcase.default Nat)
        = RustResult.panicked :=
  ⟨rfl, rfl,
   load_input_both_absent_panics (fun _ => Except.ok 7)
     (Testcase.default Nat) rfl rfl⟩

/-- C2 counterexample: `Testcase::default` is a public constructor, and
immediately after it neither `input` nor `filename` is set. -/
theorem default_testcase_breaks_invariant :
    (Testcase.default Nat).input = none
    ∧ (Testcase.default Nat).filename = none
    ∧ ¬((Testcase.default Nat).input.isSome = true
        ∨ (Testcase.default Nat).filename.isSome = true) := by
  refine ⟨rfl, rfl, ?_⟩
  simp [Testcase.default]

/-- C2 (amended): every Testcase constructed by `new` or `with_filename`
(hence also by `From::from`, which delegates to `new`) has at least one of
`input`/`filename` set, and the setters and a successful `load_input`
preserve that; the public constructor `default`, however, produces a
Testcase with both absent. -/
theorem testcase_invariant_non_default {I : Type} (i x : I)
    (fname g : String) (ff : String → Except AflError I) (n : Nat)
    (tc : Testcase I)
    (h : tc.input.isSome = true ∨ tc.filename.isSome = true) :
    ((Testcase.new i).input.isSome = true
      ∨ (Testcase.new i).filename.isSome = true)
  ∧ ((Testcase.with_filename i fname).input.isSome = true
      ∨ (Testcase.with_filename i fname).filename.isSome = true)
  ∧ ((tc.set_input x).input.isSome = true
      ∨ (tc.set_input x).filename.isSome = true)
  ∧ ((tc.set_filename g).input.isSome = true
      ∨ (tc.set_filename g).filename.isSome = true)
  ∧ ((tc.set_fitness n).input.isSome = true
      ∨ (tc.set_fitness n).filename.isSome = true)
  ∧ (∀ j tc', Testcase.load_input ff tc = RustResult.ok (j, tc') →
      (tc'.input.isSome = true ∨ tc'.filename.isSome = true)) := by
  refine ⟨?_, ?_, ?_, ?_, ?_, ?_⟩
  · left; rfl
  · left; rfl
  · left; simp [Testcase.set_input]
  · right; simp [Testcase.set_filename]
  · simpa [Testcase.set_fitness] using h
  · intro j tc' hload
    rcases hin : tc.input with _ | i0
    · rcases hfn : tc.filename with _ | f0
      · simp [Testcase.load_input, hin, hfn] at hload
      · rcases hff : ff f0 with e | i1
        · simp [Testcase.load_input, hin, hfn, hff] at hload
        · simp [Testcase.load_input, hin, hfn, hff] at hload
          left
          rw [← hload.2]
          rfl
    · simp [Testcase.load_input, hin] at hload
      left
      rw [← hload.2, hin]
      rfl

/-- Witness for C2 (amended) at a concrete fresh testcase. -/
theorem testcase_invariant_non_default_witness :
    ((Testcase.new (3 : Nat)).input.isSome = true
      ∨ (Testcase.new (3 : Nat)).filename.isSome = true)
    ∧ ((Testcase.new (1 : Nat)).input.isSome = true
      ∨ (Testcase.new (1 : Nat)).filename.isSome = true) :=
  ⟨Or.inl rfl,
   (testcase_invariant_non_default 1 2 "a" "b" (fun _ => Except.ok 0) 4
     (Testcase.new 3) (Or.inl rfl)).1⟩

/-- C3: `evaluate_input` increments `executions` by exactly one once the
target run has occurred, even if the observer post-processing or the
feedback scoring fails afterwards; and every successful call leaves
`executions` at exactly one more than before, whatever fitness it
returns. -/
theorem evaluate_input_increments_once (s : State) (ex : ExecOutcome) :
    (ex.reset = .ok () → ex.runTarget = .ok () →
       (State.evaluate_input s ex).2.executions = s.executions + 1)
  ∧ (∀ f, (State.evaluate_input s ex).1 = .ok f →
       (State.evaluate_input s ex).2.executions = s.executions + 1) := by
  obtain ⟨r, t, p, fi⟩ := ex
  cases r <;> cases t <;> cases p <;> cases fi <;>
    simp_all [State.evaluate_input, State.set_executions]

/-- Witness for C3 with a target run that completed but a failing
feedback step, and with a fully successful run. -/
theorem evaluate_input_increments_once_witness :
    ((ExecOutcome.mk (.ok ()) (.ok ()) (.error .execution)
        (.ok 0)).reset = .ok ()
      ∧ (State.evaluate_input (State.mk 4 0 [])
          (ExecOutcome.mk (.ok ()) (.ok ()) (.error .execution)
            (.ok 0))).2.executions = 5)
    ∧ ((State.evaluate_input (State.mk 4 0 [])
          (ExecOutcome.mk (.ok ()) (.ok ()) (.ok ())
            (.ok 0))).1 = .ok 0
      ∧ (State.evaluate_input (State.mk 4 0 [])
          (ExecOutcome.mk (.ok ()) (.ok ()) (.ok ())
            (.ok 0))).2.executions = 5) :=
  ⟨⟨rfl, (evaluate_input_increments_once (State.mk 4 0 [])
      (ExecOutcome.mk (.ok ()) (.ok ()) (.error .execution)
        (.ok 0))).1 rfl rfl⟩,
   ⟨rfl, (evaluate_input_increments_once (State.mk 4 0 [])
      (ExecOutcome.mk (.ok ()) (.ok ()) (.ok ())
        (.ok 0))).2 0 rfl⟩⟩

/-- C4 counterexample: the public setter `State::set_executions` stores an
arbitrary caller-supplied value and can make `executions` smaller. -/
theorem set_executions_can_decrease :
    ((State.mk 1 0 []).set_executions 0).executions
      < (State.mk 1 0 []).executions := by
  decide

/-- C4 (amended): `executions` is non-decreasing under the evaluation
pipeline — `evaluate_input` increments it by exactly one when the target
run completed and leaves it unchanged otherwise, and `set_start_time`
does not touch it — but the raw public setter `set_executions` stores an
arbitrary value and can decrease it. -/
theorem executions_monotone_except_setter (s : State) (ex : ExecOutcome)
    (ms : Nat) :
    s.executions ≤ (State.evaluate_input s ex).2.executions
  ∧ (ex.reset = .ok () → ex.runTarget = .ok () →
       (State.evaluate_input s ex).2.executions = s.executions + 1)
  ∧ ((ex.reset = .ok () ∧ ex.runTarget = .ok () → False) →
       (State.evaluate_input s ex).2.executions = s.executions)
  ∧ (s.set_start_time ms).executions = s.executions := by
  obtain ⟨r, t, p, fi⟩ := ex
  cases r <;> cases t <;> cases p <;> cases fi <;>
    simp_all [State.evaluate_input, State.set_executions,
      State.set_start_time]

/-- Witness for C4 (amended) at a concrete state and a failing reset:
`executions` does not decrease, and stays unchanged since the run never
completed. -/
theorem executions_monotone_except_setter_witness :
    (State.mk 7 0 []).executions
      ≤ (State.evaluate_input (State.mk 7 0 [])
          (ExecOutcome.mk (.error .execution) (.ok ()) (.ok ())
            (.ok 0))).2.executions
    ∧ (State.evaluate_input (State.mk 7 0 [])
        (ExecOutcome.mk (.error .execution) (.ok ()) (.ok ())
          (.ok 0))).2.executions = 7 :=
  ⟨(executions_monotone_except_setter (State.mk 7 0 [])
      (ExecOutcome.mk (.error .execution) (.ok ()) (.ok ()) (.ok 0)) 3).1,
   (executions_monotone_except_setter (State.mk 7 0 [])
      (ExecOutcome.mk (.error .execution) (.ok ()) (.ok ()) (.ok 0))
      3).2.2.1 (fun hc => Except.noConfusion hc.1)⟩

/-- C5: `add_if_interesting` with positive fitness (and a successful
metadata append) appends exactly one Testcase to the corpus and returns
its index, at which the corpus resolves to a Testcase with that fitness;
with fitness zero it leaves the corpus unchanged, invokes the discard
semantics, and never returns an index. -/
theorem add_if_interesting_spec {I : Type} (fb : FbOutcome) (c : Corpus I)
    (x : I) (f : Nat) :
    (0 < f → fb.append = .ok () →
       (State.add_if_interesting fb c x f).1
           = .ok (some (List.length c))
       ∧ List.length (State.add_if_interesting fb c x f).2.1
           = List.length c + 1
       ∧ (∃ tc : Testcase I,
             (State.add_if_interesting fb c x f).2.1[List.length c]?
               = some tc ∧ tc.fitness = f)
       ∧ (State.add_if_interesting fb c x f).2.2
           = [FbEffect.appendInvoked])
  ∧ ((State.add_if_interesting fb c x 0).2.1 = c
       ∧ (State.add_if_interesting fb c x 0).2.2
           = [FbEffect.discardInvoked]
       ∧ (fb.discard = .ok () →
           (State.add_if_interesting fb c x 0).1 = .ok none)
       ∧ ∀ i, (State.add_if_interesting fb c x 0).1
           ≠ .ok (some i)) := by
  constructor
  · intro hf happ
    simp only [State.add_if_interesting, State.input_to_testcase,
      Testcase.new, Testcase.set_fitness, Corpus.add, happ, hf,
      if_pos hf]
    refine ⟨rfl, ?_, ?_, rfl⟩
    · simp
    · refine ⟨Testcase.mk (some x) none f fb.appendMeta none, ?_, rfl⟩
      exact List.getElem?_concat_length c _
  · rcases hd : fb.discard with e | u
    · simp [State.add_if_interesting, State.discard_input, hd]
    · simp [State.add_if_interesting, State.discard_input, hd]

/-- Witness for C5 with fitness 1 on the empty corpus and fitness 0 on a
one-element corpus. -/
theorem add_if_interesting_spec_witness :
    ((0 : Nat) < 1
      ∧ (FbOutcome.mk (.ok ()) [] (.ok ())).append = .ok ()
      ∧ ((State.add_if_interesting (FbOutcome.mk (.ok ()) [] (.ok ()))
            ([] : Corpus Nat) 9 1).1 = .ok (some 0)
        ∧ List.length (State.add_if_interesting
            (FbOutcome.mk (.ok ()) [] (.ok ()))
            ([] : Corpus Nat) 9 1).2.1 = 1
        ∧ (∃ tc : Testcase Nat,
              (State.add_if_interesting
                (FbOutcome.mk (.ok ()) [] (.ok ()))
                ([] : Corpus Nat) 9 1).2.1[(0 : Nat)]?
                = some tc ∧ tc.fitness = 1)
        ∧ (State.add_if_interesting (FbOutcome.mk (.ok ()) [] (.ok ()))
            ([] : Corpus Nat) 9 1).2.2 = [FbEffect.appendInvoked]))
    ∧ (State.add_if_interesting (FbOutcome.mk (.ok ()) [] (.ok ()))
        ([Testcase.new (4 : Nat)] : Corpus Nat) 9 0).2.1
        = [Testcase.new (4 : Nat)] :=
  ⟨⟨Nat.one_pos, rfl,
    (add_if_interesting_spec (FbOutcome.mk (.ok ()) [] (.ok ()))
      ([] : Corpus Nat) 9 1).1 Nat.one_pos rfl⟩,
   (add_if_interesting_spec (FbOutcome.mk (.ok ()) [] (.ok ()))
      ([Testcase.new (4 : Nat)] : Corpus Nat) 9 0).2.1⟩

/-- C6: `testcase_if_interesting` with fitness 0 never produces a
Testcase and always invokes `discard_metadata_all`; with positive fitness
(and a successful metadata append) it produces a present Testcase whose
fitness is exactly the given one. -/
theorem testcase_if_interesting_spec {I : Type} (fb : FbOutcome) (x : I)
    (f : Nat) :
    ((State.testcase_if_interesting fb x 0).2 = [FbEffect.discardInvoked]
      ∧ ∀ tc, (State.testcase_if_interesting fb x 0).1 ≠ .ok (some tc))
  ∧ (0 < f → fb.append = .ok () →
      ∃ tc, (State.testcase_if_interesting fb x f).1 = .ok (some tc)
        ∧ tc.fitness = f) := by
  constructor
  · rcases hd : fb.discard with e | u
    · simp [State.testcase_if_interesting, State.discard_input, hd]
    · simp [State.testcase_if_interesting, State.discard_input, hd]
  · intro hf happ
    refine ⟨Testcase.mk (some x) none f fb.appendMeta none, ?_, rfl⟩
    simp [State.testcase_if_interesting, State.input_to_testcase,
      Testcase.new, Testcase.set_fitness, happ, hf]

/-- Witness for C6 with fitness 0 and fitness 3 at a concrete input. -/
theorem testcase_if_interesting_spec_witness :
    ((State.testcase_if_interesting (FbOutcome.mk (.ok ()) [2] (.ok ()))
        (6 : Nat) 0).2 = [FbEffect.discardInvoked])
    ∧ ((0 : Nat) < 3
      ∧ (FbOutcome.mk (.ok ()) [2] (.ok ())).append = .ok ()
      ∧ ∃ tc, (State.testcase_if_interesting
          (FbOutcome.mk (.ok ()) [2] (.ok ())) (6 : Nat) 3).1
            = .ok (some tc) ∧ tc.fitness = 3) :=
  ⟨(testcase_if_interesting_spec (FbOutcome.mk (.ok ()) [2] (.ok ()))
      (6 : Nat) 3).1.1,
   ⟨by decide, rfl,
    (testcase_if_interesting_spec (FbOutcome.mk (.ok ()) [2] (.ok ()))
      (6 : Nat) 3).2 (by decide) rfl⟩⟩

/-- C9: `store_input` without a filename returns the non-error
"not stored" result and never invokes the serializer; with a filename and
a present input it serializes to that name and returns success; with a
filename but no input it is a no-op returning "not stored". -/
theorem store_input_spec {I : Type} (wr : Except AflError Unit)
    (tc : Testcase I) :
    (tc.filename = none → Testcase.store_input wr tc = (.ok false, []))
  ∧ (∀ fname, tc.filename = some fname → tc.input = none →
       Testcase.store_input wr tc = (.ok false, []))
  ∧ (∀ fname i, tc.filename = some fname → tc.input = some i →
       wr = .ok () →
       Testcase.store_input wr tc
         = (.ok true, [StoreEffect.wrote fname])) := by
  refine ⟨?_, ?_, ?_⟩
  · intro hf
    simp [Testcase.store_input, hf]
  · intro fname hf hi
    simp [Testcase.store_input, hf, hi]
  · intro fname i hf hi hw
    simp [Testcase.store_input, hf, hi, hw]

/-- Witness for C9 at a concrete filename-backed testcase. -/
theorem store_input_spec_witness :
    (Testcase.with_filename (5 : Nat) "seed").filename = some "seed"
    ∧ (Testcase.with_filename (5 : Nat) "seed").input = some 5
    ∧ Testcase.store_input (.ok ()) (Testcase.with_filename (5 : Nat) "seed")
        = (.ok true, [StoreEffect.wrote "seed"]) :=
  ⟨rfl, rfl,
   (store_input_spec (.ok ()) (Testcase.with_filename 5 "seed")).2.2
     "seed" 5 rfl rfl rfl⟩

/-- C10: `executions_over_seconds` is zero whenever the elapsed time since
`start_time` rounds to zero whole seconds (in particular immediately after
construction), and otherwise is `executions` divided by the elapsed whole
seconds; it never fails. -/
theorem executions_over_seconds_spec (s : State) (now : Nat) :
    ((now - s.start_time) / 1000 = 0 →
       State.executions_over_seconds s now = 0)
  ∧ ((now - s.start_time) / 1000 ≠ 0 →
       State.executions_over_seconds s now
         = s.executions / ((now - s.start_time) / 1000)) := by
  constructor
  · intro hz
    by_cases h0 : now - s.start_time = 0
    · simp [State.executions_over_seconds, h0]
    · simp [State.executions_over_seconds, h0, hz]
  · intro hnz
    have h0 : now - s.start_time ≠ 0 := by
      intro h0
      rw [h0] at hnz
      exact hnz rfl
    simp [State.executions_over_seconds, h0, hnz]

/-- Helper: when every stage succeeds at `idx`, the stage loop succeeds
and performs each stage, in configured order. -/
theorem run_stages_all_ok (stages : List (Nat → Except AflError Unit))
    (idx : Nat)
    (h : ∀ st ∈ stages, st idx = .ok ()) :
    ∀ k, run_stages stages idx k
      = (.ok (), stage_log (List.length stages) idx k) := by
  induction stages with
  | nil => intro k; rfl
  | cons st rest ih =>
    intro k
    have h1 : st idx = .ok () := h st (List.mem_cons_self _ _)
    have h2 : ∀ s ∈ rest, s idx = .ok () :=
      fun s hs => h s (List.mem_cons_of_mem _ hs)
    simp only [run_stages, h1]
    rw [ih h2 (k + 1)]
    simp [stage_log]

/-- Helper: the stage loop stops at the first failing stage, performing
exactly the stages before it and the failing one, and propagates that
stage's error. -/
theorem run_stages_first_fail (pre post : List (Nat → Except AflError Unit))
    (bad : Nat → Except AflError Unit) (idx : Nat) (e : AflError)
    (hpre : ∀ st ∈ pre, st idx = .ok ()) (hbad : bad idx = .error e) :
    ∀ k, run_stages (pre ++ (bad :: post)) idx k
      = (.error e, (stage_log (List.length pre) idx k)
          ++ [FzEvent.stageRun (k + List.length pre) idx]) := by
  induction pre with
  | nil =>
    intro k
    simp only [List.nil_append, run_stages, hbad]
    simp only [stage_log, List.length_nil, List.nil_append, Nat.add_zero]
  | cons st rest ih =>
    intro k
    have h1 : st idx = .ok () := hpre st (List.mem_cons_self _ _)
    have h2 : ∀ s ∈ rest, s idx = .ok () :=
      fun s hs => hpre s (List.mem_cons_of_mem _ hs)
    simp only [List.cons_append, run_stages, h1, List.append_eq]
    rw [ih h2 (k + 1)]
    simp only [List.length_cons, stage_log, List.cons_append]
    have harith : k + 1 + List.length rest = k + (List.length rest + 1) := by
      omega
    rw [harith]

/-- C7: `fuzz_one` fails with the exhaustion error on an empty corpus;
otherwise it selects an index via `Corpus::next` and the random draw,
performs every stage in configured order against that index, propagates
the first stage failure immediately (skipping the remaining stages and
the event drain), and only after all stages succeed processes pending
events and returns the selected index. -/
theorem fuzz_one_spec {I : Type} (c : Corpus I) (choice : Nat)
    (stages : List (Nat → Except AflError Unit))
    (pr : Except AflError Unit) :
    (c = [] → fuzz_one c choice stages pr = (.error .empty, []))
  ∧ (∀ tc idx, Corpus.next c choice = .ok (tc, idx) →
      ((∀ st ∈ stages, st idx = .ok ()) → pr = .ok () →
         fuzz_one c choice stages pr
           = (.ok idx, (stage_log (List.length stages) idx 0) ++
               [FzEvent.processed]))
    ∧ (∀ pre bad post e,
         stages = pre ++ (bad :: post) →
         (∀ st ∈ pre, st idx = .ok ()) → bad idx = .error e →
         fuzz_one c choice stages pr
           = (.error e, (stage_log (List.length pre) idx 0)
               ++ [FzEvent.stageRun (List.length pre) idx]))) := by
  constructor
  · intro hc
    subst hc
    rfl
  · intro tc idx hnext
    constructor
    · intro hall hpr
      simp [fuzz_one, hnext, run_stages_all_ok stages idx hall 0, hpr]
    · intro pre bad post e hsplit hpre hbad
      subst hsplit
      simp [fuzz_one, hnext,
        run_stages_first_fail pre post bad idx e hpre hbad 0]

/-- Witness for C7: a one-testcase corpus; with one always-succeeding
stage `fuzz_one` returns index 0 after the event drain, and with a
failing second stage it propagates that failure with no event drain. -/
theorem fuzz_one_spec_witness :
    Corpus.next ([Testcase.new (0 : Nat)] : Corpus Nat) 0
        = .ok (Testcase.new (0 : Nat), 0)
    ∧ fuzz_one ([Testcase.new (0 : Nat)] : Corpus Nat) 0
        [fun _ => Except.ok ()] (.ok ())
        = (.ok 0, [FzEvent.stageRun 0 0, FzEvent.processed])
    ∧ fuzz_one ([Testcase.new (0 : Nat)] : Corpus Nat) 0
        [fun _ => Except.ok (), fun _ => Except.error AflError.execution]
        (.ok ())
        = (.error .execution, [FzEvent.stageRun 0 0, FzEvent.stageRun 1 0]) :=
  ⟨rfl,
   ((fuzz_one_spec ([Testcase.new (0 : Nat)] : Corpus Nat) 0
       [fun _ => Except.ok ()] (.ok ())).2 (Testcase.new 0) 0 rfl).1
     (fun st hst => by rw [List.mem_singleton.mp hst]) rfl,
   ((fuzz_one_spec ([Testcase.new (0 : Nat)] : Corpus Nat) 0
       [fun _ => Except.ok (), fun _ => Except.error AflError.execution]
       (.ok ())).2 (Testcase.new 0) 0 rfl).2
     [fun _ => Except.ok ()] (fun _ => Except.error AflError.execution)
     [] AflError.execution rfl
     (fun st hst => by rw [List.mem_singleton.mp hst]) rfl⟩

/-- Helper: `evaluate_input` on an all-successful executor/feedback round
yields the fitness and the state with `executions` incremented. -/
theorem evaluate_input_eq_ok (s : State) (ex : ExecOutcome) (f : Nat)
    (h1 : ex.reset = .ok ()) (h2 : ex.runTarget = .ok ())
    (h3 : ex.postExec = .ok ()) (h4 : ex.isInteresting = .ok f) :
    State.evaluate_input s ex
      = (.ok f, s.set_executions (s.executions + 1)) := by
  simp [State.evaluate_input, h1, h2, h3, h4]

/-- Helper for C8: the seeding loop, when every iteration generates
successfully, evaluates with positive fitness, appends metadata
successfully, and fires its event successfully, adds one testcase and one
`LoadInitial` event per iteration. -/
theorem gii_loop_all_interesting {I : Type} (o : InitOracle I) (n : Nat) :
    ∀ (i added : Nat) (s : State) (c : Corpus I),
    (∀ j, i ≤ j → j < i + n →
       (∃ x, o.gen j = .ok x)
       ∧ (o.exec j).reset = .ok ()
       ∧ (o.exec j).runTarget = .ok ()
       ∧ (o.exec j).postExec = .ok ()
       ∧ (∃ f, (o.exec j).isInteresting = .ok f ∧ 0 < f)
       ∧ (o.fb j).append = .ok ()
       ∧ o.fireLoadInitial j = .ok ()) →
    ∃ s' c', gii_loop o s c i n added
        = .ok (s', c', added + n, List.replicate n EmEvent.loadInitial)
      ∧ List.length c' = List.length c + n := by
  induction n with
  | zero =>
    intro i added s c _
    exact ⟨s, c, rfl, rfl⟩
  | succ n ih =>
    intro i added s c h
    obtain ⟨⟨x, hx⟩, hr, ht, hp, ⟨f, hf, hfpos⟩, happ, hfire⟩ :=
      h i (Nat.le_refl i) (by omega)
    obtain ⟨s', c', hrec, hlen⟩ :=
      ih (i + 1) (added + 1) (s.set_executions (s.executions + 1))
        (c ++ [Testcase.mk (some x) none f (o.fb i).appendMeta none])
        (fun j h1 h2 => h j (by omega) (by omega))
    refine ⟨s', c', ?_, ?_⟩
    · rw [gii_loop, hx, evaluate_input_eq_ok s (o.exec i) f hr ht hp hf]
      simp only [State.add_if_interesting, State.input_to_testcase,
        Testcase.new, Testcase.set_fitness, Corpus.add, happ,
        if_pos hfpos, hfire]
      rw [hrec]
      have harith : added + 1 + n = added + (n + 1) := by omega
      simp [List.replicate_succ, harith]
    · simp only [List.length_append, List.length_cons, List.length_nil]
        at hlen
      omega

/-- C8: starting from an empty corpus, `generate_initial_inputs` with
`num` iterations in which every generated input is interesting and no
collaborator fails ends with exactly `num` corpus entries, fires exactly
`num` `LoadInitial` events followed by exactly one summary log event, and
then asks the manager to process pending events exactly once. -/
theorem generate_initial_inputs_spec {I : Type} (o : InitOracle I)
    (s : State) (num : Nat)
    (hiter : ∀ j, j < num →
       (∃ x, o.gen j = .ok x)
       ∧ (o.exec j).reset = .ok ()
       ∧ (o.exec j).runTarget = .ok ()
       ∧ (o.exec j).postExec = .ok ()
       ∧ (∃ f, (o.exec j).isInteresting = .ok f ∧ 0 < f)
       ∧ (o.fb j).append = .ok ()
       ∧ o.fireLoadInitial j = .ok ())
    (hlog : o.fireLog = .ok ()) (hproc : o.processEvents = .ok ()) :
    ∃ s' c', State.generate_initial_inputs o s ([] : Corpus I) num
        = .ok (s', c',
            List.replicate num EmEvent.loadInitial
              ++ [EmEvent.logMsg num num, EmEvent.processed])
      ∧ List.length c' = num := by
  obtain ⟨s', c', hloop, hlen⟩ :=
    gii_loop_all_interesting o num 0 0 s ([] : Corpus I)
      (fun j h1 h2 => hiter j (by omega))
  refine ⟨s', c', ?_, by simpa using hlen⟩
  simp [State.generate_initial_inputs, hloop, hlog, hproc]

/-- Witness for C8: the all-successful oracle with `num = 10` seeds
exactly 10 entries, 10 `LoadInitial` events and one summary log. -/
theorem generate_initial_inputs_spec_witness :
    initOracleTest.fireLog = .ok ()
    ∧ initOracleTest.processEvents = .ok ()
    ∧ ∃ s' c', State.generate_initial_inputs initOracleTest
        (State.mk 0 0 []) ([] : Corpus Nat) 10
        = .ok (s', c',
            List.replicate 10 EmEvent.loadInitial
              ++ [EmEvent.logMsg 10 10, EmEvent.processed])
      ∧ List.length c' = 10 :=
  ⟨rfl, rfl,
   generate_initial_inputs_spec initOracleTest (State.mk 0 0 []) 10
     (fun _ _ =>
       ⟨⟨0, rfl⟩, rfl, rfl, rfl, ⟨1, rfl, Nat.one_pos⟩, rfl, rfl⟩)
     rfl rfl⟩

/-- Witness for C10: a state constructed at time 0 queried at time 0
(elapsed zero) and at time 2500 (two whole seconds elapsed). -/
theorem executions_over_seconds_spec_witness :
    ((0 - (State.mk 5 0 []).start_time) / 1000 = 0
      ∧ State.executions_over_seconds (State.mk 5 0 []) 0 = 0)
    ∧ ((2500 - (State.mk 5 0 []).start_time) / 1000 ≠ 0
      ∧ State.executions_over_seconds (State.mk 5 0 []) 2500 = 5 / 2) :=
  ⟨⟨by decide,
    (executions_over_seconds_spec (State.mk 5 0 []) 0).1 (by decide)⟩,
   ⟨by decide,
    (executions_over_seconds_spec (State.mk 5 0 []) 2500).2 (by decide)⟩⟩

end LibAFL
